import Mathlib

/-!
Shallow embedding of the date-normalization and time-bucket-aggregation core of
the Donnieschedule repository.

Calendar dates are represented by their epoch day number: an `Int` counting
days since 1970-01-01 (the civil-date/day-number conversions follow the
standard Gregorian-calendar algorithms).  JavaScript `Date` values are
modelled at day granularity, in a fixed time zone with no DST transitions,
so an instant is identified with its calendar day.  JavaScript numbers are
modelled as exact integers (`Int`), and strings as `List Char`.

On `Int`, the operators `/` and `%` denote Euclidean division and remainder,
which for the positive divisors used throughout coincide with the floor
division and floor modulo that `Math.floor`-based JavaScript code and the
ECMAScript `MakeDay` specification use.

Sources embedded here:
- `parseDateValue`, `parseDuration` from `src/src/pages/CampervanSchedule.jsx`
  (lines 433-535);
- `startOfWeekMonday`, `daysSinceISO`, `normalizeType`, `yardRangeDefs`,
  `computeStockTrend` and the yard-inventory share computation from
  `src/unnamed/part_000`.
-/

/-! ## JavaScript string primitives -/

/-- Whitespace as recognised by `String.prototype.trim` (restricted to the
ASCII whitespace characters that can occur in the repository's data). -/
def jsWhitespaceChar (c : Char) : Bool :=
  c = ' ' || c = '\t' || c = '\n' || c = '\r'

/-- Model of `String.prototype.trim`: drop whitespace from both ends. -/
def jsTrim (s : List Char) : List Char :=
  ((s.dropWhile jsWhitespaceChar).reverse.dropWhile jsWhitespaceChar).reverse

/-- Model of `String.prototype.toLowerCase` on a single character
(ASCII letters only, which covers all strings compared in the source). -/
def jsToLowerChar (c : Char) : Char :=
  if 65 ≤ c.toNat ∧ c.toNat ≤ 90 then Char.ofNat (c.toNat + 32) else c

/-- Model of `String.prototype.toLowerCase`. -/
def jsToLowerList (s : List Char) : List Char :=
  s.map jsToLowerChar

/-- Decimal digit test, as matched by the regular expression class `\d`. -/
def isDigitChar (c : Char) : Bool :=
  48 ≤ c.toNat && c.toNat ≤ 57

/-- Numeric value of a decimal digit character. -/
def digitVal (c : Char) : Nat :=
  c.toNat - 48

/-- Character for a decimal digit value. -/
def digitChar (k : Nat) : Char :=
  Char.ofNat (48 + k)

/-- Value of a string of decimal digits read left to right. -/
def natOfDigits (s : List Char) : Nat :=
  s.foldl (fun acc c => acc * 10 + digitVal c) 0

/-- Leading run of decimal digits, as consumed by `parseInt(s, 10)` after
sign handling; `none` when no digit is present (`parseInt` returns `NaN`). -/
def leadingDigits (s : List Char) : Option Nat :=
  if s.takeWhile isDigitChar = [] then none else some (natOfDigits (s.takeWhile isDigitChar))

/-- Model of JavaScript `parseInt(s, 10)`: skip leading whitespace, read an
optional sign and then a leading run of digits; `none` models `NaN`. -/
def parseIntJS (s : List Char) : Option Int :=
  match s.dropWhile jsWhitespaceChar with
  | [] => none
  | c :: rest =>
    if c = '-' then (leadingDigits rest).map (fun n => -(n : Int))
    else if c = '+' then (leadingDigits rest).map (fun n => (n : Int))
    else (leadingDigits (c :: rest)).map (fun n => (n : Int))

/-- Model of `String.prototype.split` with a single-character separator. -/
def splitOnChar (sep : Char) : List Char → List (List Char)
  | [] => [[]]
  | c :: rest =>
    if c = sep then [] :: splitOnChar sep rest
    else
      match splitOnChar sep rest with
      | [] => [[c]]
      | h :: t => (c :: h) :: t

/-- Whether the first list is an initial segment of the second. -/
def listStartsWith : List Char → List Char → Bool
  | [], _ => true
  | _ :: _, [] => false
  | a :: as, b :: bs => a = b && listStartsWith (as) (bs)

/-- Model of `String.prototype.includes`: the needle occurs contiguously in
the haystack. -/
def listContains (needle : List Char) : List Char → Bool
  | [] => needle.isEmpty
  | c :: rest => listStartsWith needle (c :: rest) || listContains needle rest

/-- Model of `s.slice(-n)`: the last `n` characters (the whole string when it
is shorter than `n`). -/
def lastN (n : Nat) (l : List Char) : List Char :=
  l.drop (l.length - n)

/-! ## Gregorian calendar arithmetic -/

/-- Proleptic-Gregorian leap-year test, as used by JavaScript `Date`. -/
def isLeap (y : Int) : Bool :=
  decide ((y % 4 = 0 ∧ y % 100 ≠ 0) ∨ y % 400 = 0)

/-- Number of days in a month of the proleptic Gregorian calendar. -/
def daysInMonth (y m : Int) : Int :=
  if m = 2 then (if isLeap y then 29 else 28)
  else if m = 4 ∨ m = 6 ∨ m = 9 ∨ m = 11 then 30
  else 31

/-- Era-shifted year of the standard civil-from-date conversion: January and
February count with the preceding (March-based) year. -/
def shiftedYear (y m : Int) : Int :=
  y - (if m ≤ 2 then 1 else 0)

/-- Year of the era (position of a year within its 400-year cycle). -/
def yoeOf (y : Int) : Int :=
  y - y / 400 * 400

/-- Day of the (March-based) year on which month `m` starts, `1 ≤ m ≤ 12`. -/
def doyOfMonth (m : Int) : Int :=
  (153 * ((m + 9) % 12) + 2) / 5

/-- Day of the 400-year era on which month `m` of year `y` starts. -/
def doeOf (y m : Int) : Int :=
  yoeOf y * 365 + yoeOf y / 4 - yoeOf y / 100 + doyOfMonth m

/-- Epoch day number (days since 1970-01-01) of the first day of month `m`
of year `y`, for `1 ≤ m ≤ 12` (standard civil-from-date conversion). -/
def daysFromCivilMonth (y m : Int) : Int :=
  shiftedYear y m / 400 * 146097 + doeOf (shiftedYear y m) m - 719468

/-- Epoch day number of the calendar date `(y, m, d)`, for `1 ≤ m ≤ 12`.
The day component simply offsets from the first of the month, which is how
day overflow rolls over into later months in JavaScript. -/
def civilToDays (y m d : Int) : Int :=
  daysFromCivilMonth y m + (d - 1)

/-- Model of the ECMAScript `MakeDay(y, m-1, d)` operation underlying
`new Date(y, m - 1, d)`: the (1-based) month is normalized into `[1, 12]`
with floor division carrying into the year, and the day offsets freely, so
out-of-range months and days roll over instead of failing. -/
def jsMakeDay (y m d : Int) : Int :=
  civilToDays (y + (m - 1) / 12) ((m - 1) % 12 + 1) d

/-- Inverse conversion: the `(year, month, day)` civil triple of an epoch day
number (standard date-from-civil algorithm). -/
def daysToCivil (z : Int) : Int × Int × Int :=
  let z2 := z + 719468
  let era := z2 / 146097
  let doe := z2 - era * 146097
  let yoe := (doe - doe / 1460 + doe / 36524 - doe / 146096) / 365
  let y := yoe + era * 400
  let doy := doe - (365 * yoe + yoe / 4 - yoe / 100)
  let mp := (5 * doy + 2) / 153
  let d := doy - (153 * mp + 2) / 5 + 1
  let m := mp + (if mp < 10 then 3 else -9)
  (y + (if m ≤ 2 then 1 else 0), m, d)

/-- Model of `Date.prototype.getDay`: `0` is Sunday; 1970-01-01 (epoch day
`0`) was a Thursday (`4`). -/
def dayOfWeek (z : Int) : Int :=
  (z + 4) % 7

/-- Milliseconds per day, the `DAY_MS` constant of the source. -/
def DAY_MS : Int := 86400000

/-- Epoch day number of 1899-12-30, the spreadsheet-serial epoch
(`new Date(1899, 11, 30)` in the source). -/
def excelEpochDay : Int := civilToDays 1899 12 30

/-- Model of `new Date(ms)` for a millisecond timestamp, reduced to the
calendar day of the instant: valid exactly when the timestamp is within the
ECMAScript time range of ±8.64e15 milliseconds, else `NaN` (`none`). -/
def jsNewDateFromMs (ms : Int) : Option Int :=
  if -8640000000000000 ≤ ms ∧ ms ≤ 8640000000000000 then some (ms / DAY_MS) else none

/-- The ECMAScript two-digit-year rule of the `Date` constructor: integer
years `0..99` denote `1900..1999`. -/
def jsYearAdjust (y : Int) : Int :=
  if 0 ≤ y ∧ y ≤ 99 then y + 1900 else y

/-- Model of `new Date(y, m - 1, d)`: years `0..99` are interpreted as
`1900..1999` (the ECMAScript two-digit-year rule), components roll over via
`jsMakeDay`, and the result is invalid (`none`) only outside the ±1e8-day
ECMAScript time range. -/
def jsDateYMD (y m d : Int) : Option Int :=
  if -100000000 ≤ jsMakeDay (jsYearAdjust y) m d ∧ jsMakeDay (jsYearAdjust y) m d ≤ 100000000
  then some (jsMakeDay (jsYearAdjust y) m d) else none

/-- Model of `new Date("YYYY-MM-DDT00:00:00")` for a well-formed ISO string:
engines validate the calendar components of ISO date strings, so an
out-of-range month or day yields an invalid date (`none`) rather than
rolling over. -/
def isoMidnightDate (y m d : Int) : Option Int :=
  if 1 ≤ m ∧ m ≤ 12 ∧ 1 ≤ d ∧ d ≤ daysInMonth y m then some (civilToDays y m d) else none

/-! ## parseDateValue (CampervanSchedule.jsx lines 433-512) -/

/-- Raw inputs accepted by `parseDateValue`: `null`/`undefined`, an existing
`Date` object (valid or invalid), a number, or a string. -/
inductive JSDateInput where
  | nullish
  | dateObj (d : Option Int)
  | num (n : Int)
  | str (s : List Char)
deriving DecidableEq

/-- Shape test for the regular expression `^\d{4}-\d{2}-\d{2}$`, yielding the
three numeric components on success. -/
def matchIsoYmd : List Char → Option (Int × Int × Int)
  | [y1, y2, y3, y4, s1, m1, m2, s2, d1, d2] =>
    if s1 = '-' ∧ s2 = '-' ∧ isDigitChar y1 ∧ isDigitChar y2 ∧ isDigitChar y3 ∧ isDigitChar y4 ∧
        isDigitChar m1 ∧ isDigitChar m2 ∧ isDigitChar d1 ∧ isDigitChar d2 then
      some ((natOfDigits [y1, y2, y3, y4] : Int), (natOfDigits [m1, m2] : Int),
        (natOfDigits [d1, d2] : Int))
    else none
  | _ => none

/-- Shape test for `^\d{2}-\d{2}-\d{4}$` (day, month, year). -/
def matchDmyDash : List Char → Option (Int × Int × Int)
  | [d1, d2, s1, m1, m2, s2, y1, y2, y3, y4] =>
    if s1 = '-' ∧ s2 = '-' ∧ isDigitChar d1 ∧ isDigitChar d2 ∧ isDigitChar m1 ∧ isDigitChar m2 ∧
        isDigitChar y1 ∧ isDigitChar y2 ∧ isDigitChar y3 ∧ isDigitChar y4 then
      some ((natOfDigits [d1, d2] : Int), (natOfDigits [m1, m2] : Int),
        (natOfDigits [y1, y2, y3, y4] : Int))
    else none
  | _ => none

/-- Shape test for `^\d{2}\.\d{2}\.\d{4}$` (day, month, year). -/
def matchDmyDot : List Char → Option (Int × Int × Int)
  | [d1, d2, s1, m1, m2, s2, y1, y2, y3, y4] =>
    if s1 = '.' ∧ s2 = '.' ∧ isDigitChar d1 ∧ isDigitChar d2 ∧ isDigitChar m1 ∧ isDigitChar m2 ∧
        isDigitChar y1 ∧ isDigitChar y2 ∧ isDigitChar y3 ∧ isDigitChar y4 then
      some ((natOfDigits [d1, d2] : Int), (natOfDigits [m1, m2] : Int),
        (natOfDigits [y1, y2, y3, y4] : Int))
    else none
  | _ => none

/-- Shared tail of the numeric interpretations of `parseDateValue`: the
compact-`YYYYMMDD` range check, then the spreadsheet-serial range check,
then the epoch-milliseconds fallback `new Date(value)`.  The source repeats
this block verbatim for the number branch (lines 442-455) and for the
all-digits string branch (lines 464-477). -/
def parseDigitsNumber (n : Int) : Option Int :=
  if 19000101 ≤ n ∧ n ≤ 21001231 then
    jsDateYMD (n / 10000) ((n % 10000) / 100) (n % 100)
  else if 30000 ≤ n ∧ n ≤ 80000 then
    jsNewDateFromMs (excelEpochDay * DAY_MS + n * DAY_MS)
  else jsNewDateFromMs n

/-- Number branch of `parseDateValue` (lines 436-456): timestamps above
1e11 are epoch milliseconds, then the shared numeric interpretations. -/
def parseNumericValue (n : Int) : Option Int :=
  if 100000000000 < n then jsNewDateFromMs n
  else parseDigitsNumber n

/-- Modelled from the spec: the final free-form `new Date(string)` fallback
(spec §4.1 step 11) delegates to the engine's implementation-defined
heuristic parser, which is not part of this repository; it is modelled as
always failing (`Unrecognized`).  No claim verified here depends on an input
reaching this branch. -/
def jsFreeParse (_ : List Char) : Option Int :=
  none

/-- String branch of `parseDateValue` (lines 458-511): trim; empty and the
literal `dd/mm/yyyy` placeholder (case-insensitively) fail; then all-digits,
ISO `YYYY-MM-DD`, `DD-MM-YYYY`, `DD.MM.YYYY`, a three-part `/`-separated
day/month/year split, and finally the free-form fallback; this is the body
of the string branch after trimming. -/
def parseTrimmed (t : List Char) : Option Int :=
  if t = [] then none
  else if jsToLowerList t = ("dd/mm/yyyy".data) then none
  else if t.all isDigitChar then parseDigitsNumber (natOfDigits t : Int)
  else
    match matchIsoYmd t with
    | some (y, m, d) => isoMidnightDate y m d
    | none =>
      match matchDmyDash t with
      | some (d, m, y) => jsDateYMD y m d
      | none =>
        match matchDmyDot t with
        | some (d, m, y) => jsDateYMD y m d
        | none =>
          match splitOnChar '/' t with
          | [p1, p2, p3] =>
            match parseIntJS p1, parseIntJS p2, parseIntJS p3 with
            | some first, some second, some third => jsDateYMD third second first
            | _, _, _ => jsFreeParse t
          | _ => jsFreeParse t

/-- String branch entry: `const stringValue = String(value).trim()`. -/
def parseStr (s : List Char) : Option Int :=
  parseTrimmed (jsTrim s)

/-- Model of `parseDateValue` (CampervanSchedule.jsx lines 433-512).  The
leading `if (!value) return null` makes `null`, `undefined`, `NaN`, `0` and
the empty string fail immediately; a `Date` object is passed through when
its instant is valid. -/
def parseDateValue : JSDateInput → Option Int
  | JSDateInput.nullish => none
  | JSDateInput.dateObj d => d
  | JSDateInput.num n => if n = 0 then none else parseNumericValue n
  | JSDateInput.str s => if s = [] then none else parseStr s

/-- JavaScript falsiness of a `parseDateValue` input, as tested by
`if (!startValue || !endValue)` in `parseDuration`. -/
def jsFalsy : JSDateInput → Bool
  | JSDateInput.nullish => true
  | JSDateInput.dateObj _ => false
  | JSDateInput.num n => decide (n = 0)
  | JSDateInput.str s => s.isEmpty

/-- Model of `parseDuration` (CampervanSchedule.jsx lines 528-535): falsy or
unparseable endpoints yield the empty result (`none`); otherwise the
whole-day difference, with negative differences reported as empty, never as
negative numbers.  At day granularity the `Math.round` of the source is
exact. -/
def parseDuration (startValue endValue : JSDateInput) : Option Int :=
  if jsFalsy startValue || jsFalsy endValue then none
  else
    match parseDateValue startValue, parseDateValue endValue with
    | some s, some e => if 0 ≤ e - s then some (e - s) else none
    | _, _ => none

/-! ## TimeBucketAggregator (src/unnamed/part_000) -/

/-- Model of `startOfWeekMonday` (part_000 lines 34-41): the Monday on or
before the given day. -/
def startOfWeekMonday (z : Int) : Int :=
  z - (dayOfWeek z + 6) % 7

/-- Week-start days of `computeStockTrend` (part_000 lines 93-97): the source
runs `for (let i = 9; i >= 0; i -= 1) starts.push(addDays(latestStart, -7 * i))`
with a fixed 10-week window anchored at `now`; here the window length and the
anchor day are parameters, and bucket `i` (oldest first) starts
`7 * (windowWeeks - 1 - i)` days before the anchor's Monday. -/
def weekStarts (windowWeeks : Nat) (anchor : Int) : List Int :=
  (List.range windowWeeks).map
    (fun i : Nat => startOfWeekMonday anchor - 7 * ((windowWeeks : Int) - 1 - (i : Int)))

/-- Membership test of an event in the half-open week `[s, s + 7)`, the
filter `d && d >= s && d < e` of part_000 lines 102-105 (with
`e = addDays(s, 7)`); an unparseable date never matches. -/
def inWeekBucket (s : Int) : Option Int → Bool
  | none => false
  | some z => decide (s ≤ z ∧ z < s + 7)

/-- Number of entries whose parsed date falls in the week starting at `s`
(the `receivedByWeek` / `handoversByWeek` filters of part_000). -/
def countInWeek (entries : List JSDateInput) (s : Int) : Nat :=
  (entries.filter (fun e => inWeekBucket s (parseDateValue e))).length

/-- Net change of a week: arrivals minus departures (part_000 line 116). -/
def netForWeek (yardEntries handoverEntries : List JSDateInput) (s : Int) : Int :=
  (countInWeek yardEntries s : Int) - (countInWeek handoverEntries s : Int)

/-- Per-week net changes of `computeStockTrend` (the `netByWeek` array of
part_000 line 116), one per week start. -/
def netByWeekList (yardEntries handoverEntries : List JSDateInput) (windowWeeks : Nat)
    (anchor : Int) : List Int :=
  (weekStarts windowWeeks anchor).map (netForWeek yardEntries handoverEntries)

/-- Model of `computeStockTrend` (part_000 lines 87-125): buckets are the
`windowWeeks` week starts, and the level of bucket `i` walks backward from
`currentTotal` by undoing the net changes of all later weeks, clamped at 0
(`Math.max(0, currentTotal - sumLater)`, lines 118-122).  Each result pair
is the bucket's start day and its level (the source renders the start day as
a `MM/DD` label). -/
def computeStockTrend (yardEntries handoverEntries : List JSDateInput) (currentTotal : Int)
    (windowWeeks : Nat) (anchor : Int) : List (Int × Int) :=
  (List.range windowWeeks).map
    (fun i => ((weekStarts windowWeeks anchor).getD i 0,
      max 0 (currentTotal -
        ((netByWeekList yardEntries handoverEntries windowWeeks anchor).drop (i + 1)).sum)))

/-- Fixed age range used to classify days-in-yard (part_000 lines 11-16). -/
structure YardRange where
  label : String
  min : Nat
  max : Nat
deriving DecidableEq

/-- The four ranges of part_000 lines 11-16. -/
def yardRangeDefs : List YardRange :=
  [{ label := "0–30", min := 0, max := 30 },
    { label := "31–90", min := 31, max := 90 },
    { label := "91–180", min := 91, max := 180 },
    { label := "180+", min := 181, max := 9999 }]

/-- Model of `daysSinceISO` (part_000 lines 26-32) applied to an already
parsed date: whole days between the record's date and now, floored and
clamped at 0; a missing or unparseable date yields 0. -/
def daysSinceISO (now : Int) : Option Int → Int
  | none => 0
  | some z => max 0 (now - z)

/-- Whether an age in days lies in a range, with inclusive bounds on both
ends (`x.daysInYard >= min && x.daysInYard <= max`, part_000 line 200). -/
def inYardRange (r : YardRange) (age : Int) : Bool :=
  decide ((r.min : Int) ≤ age ∧ age ≤ (r.max : Int))

/-- Model of the `yardRanges` per-range counts (part_000 lines 198-201). -/
def yardRangeCounts (entries : List (Option Int)) (now : Int) : List (String × Nat) :=
  yardRangeDefs.map
    (fun r => (r.label, (entries.filter (fun e => inYardRange r (daysSinceISO now e))).length))

/-- Ranges of `yardRangeDefs` containing a given age. -/
def rangesContaining (age : Int) : List YardRange :=
  yardRangeDefs.filter (fun r => inYardRange r age)

/-- Model of `normalizeType` (part_000 lines 68-76); `none` models a missing
field, which `toStr` turns into the empty string.  `normalizedTypeKey` is
the `toStr(value).toLowerCase().trim()` of line 69. -/
def normalizedTypeKey (value : Option (List Char)) : List Char :=
  jsTrim (jsToLowerList (value.getD []))

def normalizeType (value : Option (List Char)) : String :=
  if normalizedTypeKey value = [] then "Customer"
  else if listContains ("stock".data) (normalizedTypeKey value) then "Stock"
  else if listContains ("customer".data) (normalizedTypeKey value)
      || listContains ("retail".data) (normalizedTypeKey value) then
    if lastN 5 (normalizedTypeKey value) = ("stock".data) then "Stock" else "Customer"
  else "Customer"

/-- Model of `Math.round` on an exact rational: floor of `q + 1/2`, which is
round-half-up (the ECMAScript definition of `Math.round`). -/
def jsRound (q : ℚ) : ℤ :=
  ⌊q + 1 / 2⌋

/-- The yard-inventory snapshot of part_000 lines 203-212. -/
structure YardInventory where
  stock : ℕ
  customer : ℕ
  total : ℕ
  stockPct : ℤ
  customerPct : ℤ
deriving DecidableEq

/-- Model of the yard-inventory share computation (part_000 lines 203-212):
counts of `"Stock"`- and `"Customer"`-typed entries and their integer
percentages of the total, with a zero total short-circuiting to 0 before any
division (`total ? Math.round((stock / total) * 100) : 0`).  `stockCount`
and `customerCount` are the two filters of lines 203-204. -/
def stockCount (types : List String) : Nat :=
  types.countP (fun x => decide (x = "Stock"))

def customerCount (types : List String) : Nat :=
  types.countP (fun x => decide (x = "Customer"))

def yardInventory (types : List String) : YardInventory :=
  { stock := stockCount types
    customer := customerCount types
    total := types.length
    stockPct := if types.length = 0 then 0
      else jsRound ((stockCount types : ℚ) / (types.length : ℚ) * 100)
    customerPct := if types.length = 0 then 0
      else jsRound ((customerCount types : ℚ) / (types.length : ℚ) * 100) }

/-! ## Statement-side constructors for the supported input shapes -/

/-- Two-digit zero-padded decimal rendering of `n ≤ 99`. -/
def pad2 (n : Nat) : List Char :=
  [digitChar (n / 10), digitChar (n % 10)]

/-- Four-digit zero-padded decimal rendering of `n ≤ 9999`. -/
def pad4 (n : Nat) : List Char :=
  [digitChar (n / 1000), digitChar (n / 100 % 10), digitChar (n / 10 % 10), digitChar (n % 10)]

/-- The ISO `YYYY-MM-DD` string denoting the calendar day `(y, m, d)`. -/
def isoStringOf (y m d : Nat) : List Char :=
  pad4 y ++ '-' :: (pad2 m ++ '-' :: pad2 d)

/-- The day-first `DD/MM/YYYY` slash string denoting `(y, m, d)`. -/
def dayFirstStringOf (y m d : Nat) : List Char :=
  pad2 d ++ '/' :: (pad2 m ++ '/' :: pad4 y)

/-- The compact 8-digit `YYYYMMDD` integer denoting `(y, m, d)`. -/
def compactOf (y m d : Nat) : Int :=
  (y : Int) * 10000 + (m : Int) * 100 + (d : Int)

/-- The spreadsheet serial denoting `(y, m, d)`: days since 1899-12-30. -/
def serialOf (y m d : Nat) : Int :=
  civilToDays y m d - excelEpochDay

/-! ## Helper lemmas about the string primitives -/

theorem dropWhile_eq_self_of_none (p : Char → Bool) (s : List Char)
    (h : ∀ c ∈ s, p c = false) : s.dropWhile p = s := by
  cases s with
  | nil => rfl
  | cons c rest => simp [List.dropWhile_cons, h c (by simp)]

theorem jsTrim_eq_self (s : List Char) (h : ∀ c ∈ s, jsWhitespaceChar c = false) :
    jsTrim s = s := by
  unfold jsTrim
  rw [dropWhile_eq_self_of_none _ _ h,
    dropWhile_eq_self_of_none _ _ (fun c hc => h c (List.mem_reverse.mp hc)), List.reverse_reverse]

theorem jsToLowerList_eq_self (s : List Char) (h : ∀ c ∈ s, jsToLowerChar c = c) :
    jsToLowerList s = s := by
  unfold jsToLowerList
  rw [List.map_congr_left h]
  exact List.map_id' s

theorem isDigitChar_toNat {c : Char} (h : isDigitChar c = true) :
    48 ≤ c.toNat ∧ c.toNat ≤ 57 := by
  simpa [isDigitChar] using h

theorem char_ne_of_toNat_ne {c d : Char} (h : c.toNat ≠ d.toNat) : c ≠ d :=
  fun hc => h (by rw [hc])

theorem jsToLowerChar_of_digit {c : Char} (h : isDigitChar c = true) :
    jsToLowerChar c = c := by
  have := isDigitChar_toNat h
  unfold jsToLowerChar
  rw [if_neg (by omega)]

theorem jsWhitespaceChar_of_digit {c : Char} (h : isDigitChar c = true) :
    jsWhitespaceChar c = false := by
  have h2 := isDigitChar_toNat h
  have hsp : c ≠ ' ' := char_ne_of_toNat_ne (by intro hv; rw [show (' ').toNat = 32 from rfl] at hv; omega)
  have hta : c ≠ '\t' := char_ne_of_toNat_ne (by intro hv; rw [show ('\t').toNat = 9 from rfl] at hv; omega)
  have hnl : c ≠ '\n' := char_ne_of_toNat_ne (by intro hv; rw [show ('\n').toNat = 10 from rfl] at hv; omega)
  have hcr : c ≠ '\r' := char_ne_of_toNat_ne (by intro hv; rw [show ('\r').toNat = 13 from rfl] at hv; omega)
  simp [jsWhitespaceChar, hsp, hta, hnl, hcr]

theorem digitChar_toNat {k : Nat} (h : k < 10) : (digitChar k).toNat = 48 + k := by
  interval_cases k <;> decide

theorem isDigitChar_digitChar {k : Nat} (h : k < 10) : isDigitChar (digitChar k) = true := by
  simp [isDigitChar, digitChar_toNat h]
  omega

theorem digitVal_digitChar {k : Nat} (h : k < 10) : digitVal (digitChar k) = k := by
  simp [digitVal, digitChar_toNat h]

theorem natOfDigits_pad2 {n : Nat} (h : n ≤ 99) : natOfDigits (pad2 n) = n := by
  have h1 : n / 10 < 10 := by omega
  have h2 : n % 10 < 10 := by omega
  simp [natOfDigits, pad2, List.foldl, digitVal_digitChar h1, digitVal_digitChar h2]
  omega

theorem natOfDigits_pad4 {n : Nat} (h : n ≤ 9999) : natOfDigits (pad4 n) = n := by
  have h1 : n / 1000 < 10 := by omega
  have h2 : n / 100 % 10 < 10 := by omega
  have h3 : n / 10 % 10 < 10 := by omega
  have h4 : n % 10 < 10 := by omega
  simp [natOfDigits, pad4, List.foldl, digitVal_digitChar h1, digitVal_digitChar h2,
    digitVal_digitChar h3, digitVal_digitChar h4]
  omega

theorem all_isDigitChar_pad2 {n : Nat} (h : n ≤ 99) :
    ∀ c ∈ pad2 n, isDigitChar c = true := by
  have h1 : n / 10 < 10 := by omega
  have h2 : n % 10 < 10 := by omega
  intro c hc
  simp [pad2] at hc
  rcases hc with hc | hc <;> subst hc
  · exact isDigitChar_digitChar h1
  · exact isDigitChar_digitChar h2

theorem all_isDigitChar_pad4 {n : Nat} (h : n ≤ 9999) :
    ∀ c ∈ pad4 n, isDigitChar c = true := by
  have h1 : n / 1000 < 10 := by omega
  have h2 : n / 100 % 10 < 10 := by omega
  have h3 : n / 10 % 10 < 10 := by omega
  have h4 : n % 10 < 10 := by omega
  intro c hc
  simp [pad4] at hc
  rcases hc with hc | hc | hc | hc <;> subst hc
  · exact isDigitChar_digitChar h1
  · exact isDigitChar_digitChar h2
  · exact isDigitChar_digitChar h3
  · exact isDigitChar_digitChar h4

theorem takeWhile_eq_self_of_all (p : Char → Bool) (s : List Char)
    (h : ∀ c ∈ s, p c = true) : s.takeWhile p = s := by
  induction s with
  | nil => rfl
  | cons c rest ih =>
    rw [List.takeWhile_cons, if_pos (h c (by simp)), ih (fun x hx => h x (by simp [hx]))]

theorem parseIntJS_of_digits (s : List Char) (hne : s ≠ [])
    (h : ∀ c ∈ s, isDigitChar c = true) : parseIntJS s = some (natOfDigits s : Int) := by
  cases s with
  | nil => exact absurd rfl hne
  | cons c rest =>
    have hc := h c (by simp)
    have hcn := isDigitChar_toNat hc
    have hminus : c ≠ '-' :=
      char_ne_of_toNat_ne (by intro hv; rw [show ('-').toNat = 45 from rfl] at hv; omega)
    have hplus : c ≠ '+' :=
      char_ne_of_toNat_ne (by intro hv; rw [show ('+').toNat = 43 from rfl] at hv; omega)
    unfold parseIntJS
    rw [dropWhile_eq_self_of_none _ _ (fun x hx => jsWhitespaceChar_of_digit (h x hx))]
    simp only [if_neg hminus, if_neg hplus]
    unfold leadingDigits
    rw [takeWhile_eq_self_of_all _ _ h]
    simp

theorem splitOnChar_cons (sep c : Char) (rest : List Char) :
    splitOnChar sep (c :: rest) =
      if c = sep then [] :: splitOnChar sep rest
      else
        match splitOnChar sep rest with
        | [] => [[c]]
        | h :: t => (c :: h) :: t := rfl

theorem splitOnChar_of_no_sep (sep : Char) (xs : List Char) (h : ∀ c ∈ xs, c ≠ sep) :
    splitOnChar sep xs = [xs] := by
  induction xs with
  | nil => rfl
  | cons c rest ih =>
    rw [splitOnChar_cons, if_neg (h c (by simp)), ih (fun x hx => h x (by simp [hx]))]

theorem splitOnChar_append_sep (sep : Char) (xs rest : List Char) (h : ∀ c ∈ xs, c ≠ sep) :
    splitOnChar sep (xs ++ sep :: rest) = xs :: splitOnChar sep rest := by
  induction xs with
  | nil =>
    rw [List.nil_append, splitOnChar_cons, if_pos rfl]
  | cons c tail ih =>
    rw [List.cons_append, splitOnChar_cons, if_neg (h c (by simp)),
      ih (fun x hx => h x (by simp [hx]))]

/-! ## Helper lemmas about the calendar model -/

theorem jsMakeDay_of_valid_month (y m d : Int) (h1 : 1 ≤ m) (h2 : m ≤ 12) :
    jsMakeDay y m d = civilToDays y m d := by
  unfold jsMakeDay
  have hdiv : (m - 1) / 12 = 0 := by omega
  have hmod : (m - 1) % 12 = m - 1 := by omega
  rw [hdiv, hmod]
  norm_num

theorem jsMakeDay_bounds (y m d : Int) (hy1 : 0 ≤ y) (hy2 : y ≤ 9999)
    (hm1 : 0 ≤ m) (hm2 : m ≤ 99) (hd1 : 0 ≤ d) (hd2 : d ≤ 99) :
    -100000000 ≤ jsMakeDay y m d ∧ jsMakeDay y m d ≤ 100000000 := by
  unfold jsMakeDay civilToDays daysFromCivilMonth doeOf yoeOf doyOfMonth shiftedYear
  split <;> omega

theorem jsNewDateFromMs_day (z : Int) (h1 : -100000000 ≤ z) (h2 : z ≤ 100000000) :
    jsNewDateFromMs (z * DAY_MS) = some z := by
  unfold jsNewDateFromMs DAY_MS
  rw [if_pos (by constructor <;> omega)]
  congr 1
  exact Int.mul_ediv_cancel z (by decide)

/-! ## Branch lemmas for parseDateValue -/

theorem parseNum_epochMs (n : Int) (h : 100000000000 < n) :
    parseDateValue (JSDateInput.num n) = jsNewDateFromMs n := by
  simp only [parseDateValue]
  rw [if_neg (by omega : ¬n = 0)]
  unfold parseNumericValue
  rw [if_pos h]

theorem parseNum_compact (n : Int) (h1 : 19000101 ≤ n) (h2 : n ≤ 21001231) :
    parseDateValue (JSDateInput.num n) =
      jsDateYMD (n / 10000) ((n % 10000) / 100) (n % 100) := by
  simp only [parseDateValue]
  rw [if_neg (by omega : ¬n = 0)]
  unfold parseNumericValue
  rw [if_neg (by omega)]
  unfold parseDigitsNumber
  rw [if_pos ⟨h1, h2⟩]

theorem parseNum_serial (n : Int) (h1 : 30000 ≤ n) (h2 : n ≤ 80000) :
    parseDateValue (JSDateInput.num n) = some (excelEpochDay + n) := by
  have hexcel : excelEpochDay = -25569 := by decide
  simp only [parseDateValue]
  rw [if_neg (by omega : ¬n = 0)]
  unfold parseNumericValue
  rw [if_neg (by omega)]
  unfold parseDigitsNumber
  rw [if_neg (by omega), if_pos ⟨h1, h2⟩]
  rw [show excelEpochDay * DAY_MS + n * DAY_MS = (excelEpochDay + n) * DAY_MS by ring]
  exact jsNewDateFromMs_day _ (by omega) (by omega)

theorem parseStr_digits_fallback (s : List Char) (hne : s ≠ [])
    (hdig : ∀ c ∈ s, isDigitChar c = true)
    (hr1 : ¬(19000101 ≤ natOfDigits s ∧ natOfDigits s ≤ 21001231))
    (hr2 : ¬(30000 ≤ natOfDigits s ∧ natOfDigits s ≤ 80000)) :
    parseDateValue (JSDateInput.str s) = jsNewDateFromMs (natOfDigits s : Int) := by
  simp only [parseDateValue]
  rw [if_neg hne]
  have htrim : jsTrim s = s :=
    jsTrim_eq_self s (fun c hc => jsWhitespaceChar_of_digit (hdig c hc))
  have hlower : jsToLowerList s = s :=
    jsToLowerList_eq_self s (fun c hc => jsToLowerChar_of_digit (hdig c hc))
  have hph : jsToLowerList s ≠ ("dd/mm/yyyy".data) := by
    rw [hlower]
    intro heq
    have hm : '/' ∈ s := by rw [heq]; decide
    have := hdig '/' hm
    simp [isDigitChar] at this
  have hall : s.all isDigitChar = true := List.all_eq_true.mpr hdig
  unfold parseStr
  rw [htrim]
  unfold parseTrimmed
  rw [if_neg hne, if_neg hph, if_pos hall]
  unfold parseDigitsNumber
  rw [if_neg (by omega), if_neg (by omega)]

/-! ## Claim C1: numeric interpretation precedence of parseDateValue -/

/-- C1.  For every numeric input to `parseDateValue`: a value greater than
1×10^11 is interpreted as epoch milliseconds; a value in `[19000101,
21001231]` is interpreted as compact `YYYYMMDD` with `year = value / 10000`,
`month = (value % 10000) / 100`, `day = value % 100` (constructed by the
rolling `new Date(year, month - 1, day)`); a value in `[30000, 80000]` is
interpreted as a day count from the 1899-12-30 spreadsheet epoch; and an
all-digits string whose value falls in none of those ranges is interpreted
as epoch milliseconds.  The interpretations are tried in this order and the
first matching range wins. -/
theorem claim_C1 :
    (∀ n : Int, 100000000000 < n →
      parseDateValue (JSDateInput.num n) = jsNewDateFromMs n) ∧
    (∀ n : Int, 19000101 ≤ n → n ≤ 21001231 →
      parseDateValue (JSDateInput.num n) =
        jsDateYMD (n / 10000) ((n % 10000) / 100) (n % 100)) ∧
    (∀ n : Int, 30000 ≤ n → n ≤ 80000 →
      parseDateValue (JSDateInput.num n) = some (excelEpochDay + n)) ∧
    (∀ s : List Char, s ≠ [] → (∀ c ∈ s, isDigitChar c = true) →
      ¬(19000101 ≤ natOfDigits s ∧ natOfDigits s ≤ 21001231) →
      ¬(30000 ≤ natOfDigits s ∧ natOfDigits s ≤ 80000) →
      parseDateValue (JSDateInput.str s) = jsNewDateFromMs (natOfDigits s : Int)) :=
  ⟨parseNum_epochMs, parseNum_compact, parseNum_serial, parseStr_digits_fallback⟩

/-- Witness for C1 at concrete inputs in each clause. -/
theorem claim_C1_witness :
    parseDateValue (JSDateInput.num 1700000000000) = jsNewDateFromMs 1700000000000 ∧
    parseDateValue (JSDateInput.num 20250215) = jsDateYMD 2025 2 15 ∧
    parseDateValue (JSDateInput.num 45703) = some (excelEpochDay + 45703) ∧
    parseDateValue (JSDateInput.str ("99999999".data)) = jsNewDateFromMs ((99999999 : Nat) : Int) :=
  ⟨claim_C1.1 1700000000000 (by decide),
    by
      have := claim_C1.2.1 20250215 (by decide) (by decide)
      simpa using this,
    claim_C1.2.2.1 45703 (by decide) (by decide),
    by
      have := claim_C1.2.2.2 ("99999999".data) (by decide) (by decide) (by decide) (by decide)
      simpa using this⟩

/-! ## Shape lemmas for the formatted date strings -/

theorem digit_ne_of_toNat {c : Char} (h : isDigitChar c = true) {e : Char}
    (he : e.toNat < 48 ∨ 57 < e.toNat) : c ≠ e := by
  have := isDigitChar_toNat h
  exact char_ne_of_toNat_ne (by omega)

theorem mem_dayFirstStringOf {y m d : Nat} :
    ∀ c ∈ dayFirstStringOf y m d, c = digitChar (d / 10) ∨ c = digitChar (d % 10) ∨
      c = digitChar (m / 10) ∨ c = digitChar (m % 10) ∨ c = digitChar (y / 1000) ∨
      c = digitChar (y / 100 % 10) ∨ c = digitChar (y / 10 % 10) ∨ c = digitChar (y % 10) ∨
      c = '/' := by
  intro c hc
  rw [show dayFirstStringOf y m d =
    [digitChar (d / 10), digitChar (d % 10), '/', digitChar (m / 10), digitChar (m % 10), '/',
      digitChar (y / 1000), digitChar (y / 100 % 10), digitChar (y / 10 % 10), digitChar (y % 10)]
    from rfl] at hc
  simp only [List.mem_cons, List.not_mem_nil, or_false] at hc
  tauto

theorem digit_or_slash_of_mem_dayFirst {y m d : Nat} (hy : y ≤ 9999) (hm : m ≤ 99)
    (hd : d ≤ 99) : ∀ c ∈ dayFirstStringOf y m d, isDigitChar c = true ∨ c = '/' := by
  intro c hc
  rcases mem_dayFirstStringOf c hc with h | h | h | h | h | h | h | h | h <;> subst h
  all_goals first
  | exact Or.inr rfl
  | exact Or.inl (isDigitChar_digitChar (by omega))

theorem mem_isoStringOf {y m d : Nat} :
    ∀ c ∈ isoStringOf y m d, c = digitChar (y / 1000) ∨ c = digitChar (y / 100 % 10) ∨
      c = digitChar (y / 10 % 10) ∨ c = digitChar (y % 10) ∨ c = digitChar (m / 10) ∨
      c = digitChar (m % 10) ∨ c = digitChar (d / 10) ∨ c = digitChar (d % 10) ∨
      c = '-' := by
  intro c hc
  rw [show isoStringOf y m d =
    [digitChar (y / 1000), digitChar (y / 100 % 10), digitChar (y / 10 % 10), digitChar (y % 10),
      '-', digitChar (m / 10), digitChar (m % 10), '-', digitChar (d / 10), digitChar (d % 10)]
    from rfl] at hc
  simp only [List.mem_cons, List.not_mem_nil, or_false] at hc
  tauto

theorem digit_or_dash_of_mem_iso {y m d : Nat} (hy : y ≤ 9999) (hm : m ≤ 99)
    (hd : d ≤ 99) : ∀ c ∈ isoStringOf y m d, isDigitChar c = true ∨ c = '-' := by
  intro c hc
  rcases mem_isoStringOf c hc with h | h | h | h | h | h | h | h | h <;> subst h
  all_goals first
  | exact Or.inr rfl
  | exact Or.inl (isDigitChar_digitChar (by omega))

theorem all_false_of_mem (p : Char → Bool) (t : List Char) (c : Char) (hc : c ∈ t)
    (h : p c = false) : t.all p = false := by
  rcases hb : t.all p with _ | _
  · rfl
  · rw [List.all_eq_true.mp hb c hc] at h
    cases h

theorem not_placeholder_of_digit_or (t : List Char)
    (hmem : ∀ c ∈ t, isDigitChar c = true ∨ (c = '/' ∨ c = '-')) :
    jsToLowerList t ≠ ("dd/mm/yyyy".data) := by
  intro heq
  have hy : 'y' ∈ jsToLowerList t := by rw [heq]; decide
  rcases List.mem_map.mp hy with ⟨c, hc, hlc⟩
  rcases hmem c hc with h | h | h
  · rw [jsToLowerChar_of_digit h] at hlc
    subst hlc
    have := isDigitChar_toNat h
    rw [show ('y').toNat = 121 from rfl] at this
    omega
  · subst h
    exact absurd hlc (by decide)
  · subst h
    exact absurd hlc (by decide)

theorem matchIsoYmd_none_of_middle (c0 c1 c2 c3 c4 c5 c6 c7 c8 c9 : Char)
    (h : ¬(c4 = '-')) :
    matchIsoYmd [c0, c1, c2, c3, c4, c5, c6, c7, c8, c9] = none := by
  simp [matchIsoYmd, h]

theorem matchDmyDash_none_of_third (c0 c1 c2 c3 c4 c5 c6 c7 c8 c9 : Char)
    (h : ¬(c2 = '-')) :
    matchDmyDash [c0, c1, c2, c3, c4, c5, c6, c7, c8, c9] = none := by
  simp [matchDmyDash, h]

theorem matchDmyDot_none_of_third (c0 c1 c2 c3 c4 c5 c6 c7 c8 c9 : Char)
    (h : ¬(c2 = '.')) :
    matchDmyDot [c0, c1, c2, c3, c4, c5, c6, c7, c8, c9] = none := by
  simp [matchDmyDot, h]

theorem daysInMonth_le_31 (y m : Int) : daysInMonth y m ≤ 31 := by
  unfold daysInMonth
  split_ifs <;> omega

theorem daysInMonth_pos (y m : Int) : 28 ≤ daysInMonth y m := by
  unfold daysInMonth
  split_ifs <;> omega

theorem jsDateYMD_eval (y m d : Int) (hy : 100 ≤ y) (hy2 : y ≤ 9999) (hm : 0 ≤ m)
    (hm2 : m ≤ 99) (hd : 0 ≤ d) (hd2 : d ≤ 99) :
    jsDateYMD y m d = some (jsMakeDay y m d) := by
  have hadj : jsYearAdjust y = y := by
    unfold jsYearAdjust
    rw [if_neg (by omega)]
  unfold jsDateYMD
  rw [hadj]
  exact if_pos (jsMakeDay_bounds y m d (by omega) hy2 hm hm2 hd hd2)

/-- Evaluation of the trimmed-string parser on a day-first slash string: the
three parts are read as day/month/year and handed to the rolling
`new Date(year, month - 1, day)`, with no validity check. -/
theorem parseStr_dayFirst (y m d : Nat) (hy : y ≤ 9999) (hm : m ≤ 99) (hd : d ≤ 99) :
    parseStr (dayFirstStringOf y m d) = jsDateYMD (y : Int) (m : Int) (d : Int) := by
  have hmem := digit_or_slash_of_mem_dayFirst (y := y) (m := m) (d := d) hy hm hd
  have hne : dayFirstStringOf y m d ≠ [] := by
    rw [show dayFirstStringOf y m d = digitChar (d / 10) ::
      (pad2 d).tail ++ '/' :: (pad2 m ++ '/' :: pad4 y) from rfl]
    simp
  have htrim : jsTrim (dayFirstStringOf y m d) = dayFirstStringOf y m d := by
    apply jsTrim_eq_self
    intro c hc
    rcases hmem c hc with h | h
    · exact jsWhitespaceChar_of_digit h
    · subst h; rfl
  have hph : jsToLowerList (dayFirstStringOf y m d) ≠ ("dd/mm/yyyy".data) := by
    apply not_placeholder_of_digit_or
    intro c hc
    rcases hmem c hc with h | h
    · exact Or.inl h
    · exact Or.inr (Or.inl h)
  have hslash : '/' ∈ dayFirstStringOf y m d := by
    rw [show dayFirstStringOf y m d = pad2 d ++ '/' :: (pad2 m ++ '/' :: pad4 y) from rfl]
    simp
  have hall : (dayFirstStringOf y m d).all isDigitChar = false :=
    all_false_of_mem _ _ '/' hslash (by decide)
  have hd10 : d / 10 < 10 := by omega
  have hd1 : d % 10 < 10 := by omega
  have hm10 : m / 10 < 10 := by omega
  have hm1 : m % 10 < 10 := by omega
  have hiso : matchIsoYmd (dayFirstStringOf y m d) = none := by
    rw [show dayFirstStringOf y m d =
      [digitChar (d / 10), digitChar (d % 10), '/', digitChar (m / 10), digitChar (m % 10), '/',
        digitChar (y / 1000), digitChar (y / 100 % 10), digitChar (y / 10 % 10),
        digitChar (y % 10)] from rfl]
    exact matchIsoYmd_none_of_middle _ _ _ _ _ _ _ _ _ _
      (digit_ne_of_toNat (isDigitChar_digitChar hm1) (Or.inl (by decide)))
  have hdash : matchDmyDash (dayFirstStringOf y m d) = none := by
    rw [show dayFirstStringOf y m d =
      [digitChar (d / 10), digitChar (d % 10), '/', digitChar (m / 10), digitChar (m % 10), '/',
        digitChar (y / 1000), digitChar (y / 100 % 10), digitChar (y / 10 % 10),
        digitChar (y % 10)] from rfl]
    exact matchDmyDash_none_of_third _ _ _ _ _ _ _ _ _ _ (by decide)
  have hdot : matchDmyDot (dayFirstStringOf y m d) = none := by
    rw [show dayFirstStringOf y m d =
      [digitChar (d / 10), digitChar (d % 10), '/', digitChar (m / 10), digitChar (m % 10), '/',
        digitChar (y / 1000), digitChar (y / 100 % 10), digitChar (y / 10 % 10),
        digitChar (y % 10)] from rfl]
    exact matchDmyDot_none_of_third _ _ _ _ _ _ _ _ _ _ (by decide)
  have hsplit : splitOnChar '/' (dayFirstStringOf y m d) = [pad2 d, pad2 m, pad4 y] := by
    rw [show dayFirstStringOf y m d = pad2 d ++ '/' :: (pad2 m ++ '/' :: pad4 y) from rfl]
    rw [splitOnChar_append_sep _ _ _
      (fun c hc => digit_ne_of_toNat (all_isDigitChar_pad2 (by omega) c hc) (Or.inl (by decide)))]
    rw [splitOnChar_append_sep _ _ _
      (fun c hc => digit_ne_of_toNat (all_isDigitChar_pad2 (by omega) c hc) (Or.inl (by decide)))]
    rw [splitOnChar_of_no_sep _ _
      (fun c hc => digit_ne_of_toNat (all_isDigitChar_pad4 (by omega) c hc) (Or.inl (by decide)))]
  have hp1 : parseIntJS (pad2 d) = some ((natOfDigits (pad2 d) : Nat) : Int) :=
    parseIntJS_of_digits _ (by simp [pad2]) (all_isDigitChar_pad2 (by omega))
  have hp2 : parseIntJS (pad2 m) = some ((natOfDigits (pad2 m) : Nat) : Int) :=
    parseIntJS_of_digits _ (by simp [pad2]) (all_isDigitChar_pad2 (by omega))
  have hp3 : parseIntJS (pad4 y) = some ((natOfDigits (pad4 y) : Nat) : Int) :=
    parseIntJS_of_digits _ (by simp [pad4]) (all_isDigitChar_pad4 (by omega))
  unfold parseStr
  rw [htrim]
  unfold parseTrimmed
  rw [if_neg hne, if_neg hph, hall]
  simp only [Bool.false_eq_true, if_false]
  rw [hiso, hdash, hdot]
  simp only [hsplit]
  rw [hp1, hp2, hp3]
  simp only [natOfDigits_pad2 (show d ≤ 99 by omega), natOfDigits_pad2 (show m ≤ 99 by omega),
    natOfDigits_pad4 hy]

/-- Evaluation of the trimmed-string parser on a well-formed ISO string: the
components reach the validating ISO date constructor. -/
theorem parseStr_iso (y m d : Nat) (hy : y ≤ 9999) (hm : m ≤ 99) (hd : d ≤ 99) :
    parseStr (isoStringOf y m d) = isoMidnightDate (y : Int) (m : Int) (d : Int) := by
  have hmem := digit_or_dash_of_mem_iso (y := y) (m := m) (d := d) hy hm hd
  have hne : isoStringOf y m d ≠ [] := by
    rw [show isoStringOf y m d = digitChar (y / 1000) ::
      ((pad4 y).tail ++ '-' :: (pad2 m ++ '-' :: pad2 d)) from rfl]
    simp
  have htrim : jsTrim (isoStringOf y m d) = isoStringOf y m d := by
    apply jsTrim_eq_self
    intro c hc
    rcases hmem c hc with h | h
    · exact jsWhitespaceChar_of_digit h
    · subst h; rfl
  have hph : jsToLowerList (isoStringOf y m d) ≠ ("dd/mm/yyyy".data) := by
    apply not_placeholder_of_digit_or
    intro c hc
    rcases hmem c hc with h | h
    · exact Or.inl h
    · exact Or.inr (Or.inr h)
  have hdashmem : '-' ∈ isoStringOf y m d := by
    rw [show isoStringOf y m d = pad4 y ++ '-' :: (pad2 m ++ '-' :: pad2 d) from rfl]
    simp
  have hall : (isoStringOf y m d).all isDigitChar = false :=
    all_false_of_mem _ _ '-' hdashmem (by decide)
  have hy3 : y / 1000 < 10 := by omega
  have hy2d : y / 100 % 10 < 10 := by omega
  have hy1d : y / 10 % 10 < 10 := by omega
  have hy0 : y % 10 < 10 := by omega
  have hm10 : m / 10 < 10 := by omega
  have hm1 : m % 10 < 10 := by omega
  have hd10 : d / 10 < 10 := by omega
  have hd1 : d % 10 < 10 := by omega
  have hiso : matchIsoYmd (isoStringOf y m d) =
      some ((natOfDigits (pad4 y) : Int), (natOfDigits (pad2 m) : Int),
        (natOfDigits (pad2 d) : Int)) := by
    rw [show isoStringOf y m d =
      [digitChar (y / 1000), digitChar (y / 100 % 10), digitChar (y / 10 % 10),
        digitChar (y % 10), '-', digitChar (m / 10), digitChar (m % 10), '-',
        digitChar (d / 10), digitChar (d % 10)] from rfl]
    rw [show pad4 y = [digitChar (y / 1000), digitChar (y / 100 % 10), digitChar (y / 10 % 10),
      digitChar (y % 10)] from rfl]
    rw [show pad2 m = [digitChar (m / 10), digitChar (m % 10)] from rfl]
    rw [show pad2 d = [digitChar (d / 10), digitChar (d % 10)] from rfl]
    simp [matchIsoYmd, isDigitChar_digitChar hy3, isDigitChar_digitChar hy2d,
      isDigitChar_digitChar hy1d, isDigitChar_digitChar hy0, isDigitChar_digitChar hm10,
      isDigitChar_digitChar hm1, isDigitChar_digitChar hd10, isDigitChar_digitChar hd1]
  unfold parseStr
  rw [htrim]
  unfold parseTrimmed
  rw [if_neg hne, if_neg hph, hall]
  simp only [Bool.false_eq_true, if_false]
  rw [hiso]
  simp only [natOfDigits_pad2 (show d ≤ 99 by omega), natOfDigits_pad2 (show m ≤ 99 by omega),
    natOfDigits_pad4 hy]

/-! ## Claim C3: out-of-range month/day is rolled over, not rejected -/

/-- Counterexample to C3 as stated: the day-first input `"32/01/2025"` has
day 32, which is out of calendar range, yet `parseDateValue` succeeds and
returns the silently wrapped date 2025-02-01, whose components differ from
the components written in the input. -/
theorem claim_C3_counterexample :
    parseDateValue (JSDateInput.str ("32/01/2025".data)) = some (jsMakeDay 2025 1 32) ∧
    daysToCivil (jsMakeDay 2025 1 32) = (2025, 2, 1) := by
  constructor
  · decide
  · decide

/-- C3 amended.  Out-of-range month/day combinations are not rejected by the
day-first slash branch: the parse succeeds with the rolled-over calendar
date computed by `jsMakeDay` (ECMAScript `MakeDay` normalization).  Only the
ISO `YYYY-MM-DD` branch rejects out-of-range components, yielding a failed
parse (`none`) rather than a wrapped date. -/
theorem claim_C3_amended (y m d : Nat) (hy : 100 ≤ y) (hy2 : y ≤ 9999) (hm : m ≤ 99)
    (hd : d ≤ 99) :
    parseDateValue (JSDateInput.str (dayFirstStringOf y m d)) =
      some (jsMakeDay (y : Int) (m : Int) (d : Int)) ∧
    (¬(1 ≤ (m : Int) ∧ (m : Int) ≤ 12 ∧ 1 ≤ (d : Int) ∧
        (d : Int) ≤ daysInMonth (y : Int) (m : Int)) →
      parseDateValue (JSDateInput.str (isoStringOf y m d)) = none) := by
  constructor
  · have hne : dayFirstStringOf y m d ≠ [] := by
      rw [show dayFirstStringOf y m d = digitChar (d / 10) ::
        ((pad2 d).tail ++ '/' :: (pad2 m ++ '/' :: pad4 y)) from rfl]
      simp
    simp only [parseDateValue]
    rw [if_neg hne, parseStr_dayFirst y m d hy2 hm hd]
    exact jsDateYMD_eval _ _ _ (by exact_mod_cast hy) (by exact_mod_cast hy2)
      (by positivity) (by exact_mod_cast hm) (by positivity) (by exact_mod_cast hd)
  · intro hinv
    have hne : isoStringOf y m d ≠ [] := by
      rw [show isoStringOf y m d = digitChar (y / 1000) ::
        ((pad4 y).tail ++ '-' :: (pad2 m ++ '-' :: pad2 d)) from rfl]
      simp
    simp only [parseDateValue]
    rw [if_neg hne, parseStr_iso y m d hy2 hm hd]
    unfold isoMidnightDate
    rw [if_neg hinv]

/-- Witness for the amended C3: `"32/01/2025"` parses to the rolled-over day
2025-02-01, and the ISO string `"2025-01-32"` fails to parse. -/
theorem claim_C3_amended_witness :
    parseDateValue (JSDateInput.str (dayFirstStringOf 2025 1 32)) =
      some (jsMakeDay 2025 1 32) ∧
    parseDateValue (JSDateInput.str (isoStringOf 2025 1 32)) = none :=
  ⟨(claim_C3_amended 2025 1 32 (by decide) (by decide) (by decide) (by decide)).1,
    (claim_C3_amended 2025 1 32 (by decide) (by decide) (by decide) (by decide)).2
      (by decide)⟩

/-! ## Claim C4: all shapes denoting one day parse equal -/

/-- C4.  For every calendar day in the range where all four shapes are
supported (compact `YYYYMMDD` needs year 1900-2100, the spreadsheet serial
needs a value in `[30000, 80000]`), the ISO string, the day-first slash
string, the compact 8-digit integer and the spreadsheet serial all parse to
the same calendar day. -/
theorem claim_C4 (y m d : Nat) (hy : 1900 ≤ y) (hy2 : y ≤ 2100) (hm1 : 1 ≤ m)
    (hm2 : m ≤ 12) (hd1 : 1 ≤ d) (hd2 : (d : Int) ≤ daysInMonth (y : Int) (m : Int))
    (hs1 : 30000 ≤ serialOf y m d) (hs2 : serialOf y m d ≤ 80000) :
    parseDateValue (JSDateInput.str (isoStringOf y m d)) =
      some (civilToDays (y : Int) (m : Int) (d : Int)) ∧
    parseDateValue (JSDateInput.str (dayFirstStringOf y m d)) =
      some (civilToDays (y : Int) (m : Int) (d : Int)) ∧
    parseDateValue (JSDateInput.num (compactOf y m d)) =
      some (civilToDays (y : Int) (m : Int) (d : Int)) ∧
    parseDateValue (JSDateInput.num (serialOf y m d)) =
      some (civilToDays (y : Int) (m : Int) (d : Int)) := by
  have hd31 : (d : Int) ≤ 31 := le_trans hd2 (daysInMonth_le_31 _ _)
  have hy9999 : y ≤ 9999 := by omega
  have hm99 : m ≤ 99 := by omega
  have hd99 : d ≤ 99 := by omega
  refine ⟨?_, ?_, ?_, ?_⟩
  · have hne : isoStringOf y m d ≠ [] := by
      rw [show isoStringOf y m d = digitChar (y / 1000) ::
        ((pad4 y).tail ++ '-' :: (pad2 m ++ '-' :: pad2 d)) from rfl]
      simp
    simp only [parseDateValue]
    rw [if_neg hne, parseStr_iso y m d hy9999 hm99 hd99]
    unfold isoMidnightDate
    rw [if_pos ⟨by exact_mod_cast hm1, by exact_mod_cast hm2, by exact_mod_cast hd1, hd2⟩]
  · have hne : dayFirstStringOf y m d ≠ [] := by
      rw [show dayFirstStringOf y m d = digitChar (d / 10) ::
        ((pad2 d).tail ++ '/' :: (pad2 m ++ '/' :: pad4 y)) from rfl]
      simp
    simp only [parseDateValue]
    rw [if_neg hne, parseStr_dayFirst y m d hy9999 hm99 hd99,
      jsDateYMD_eval _ _ _ (by exact_mod_cast (by omega : 100 ≤ y))
        (by exact_mod_cast hy9999) (by positivity) (by exact_mod_cast hm99)
        (by positivity) (by exact_mod_cast hd99),
      jsMakeDay_of_valid_month _ _ _ (by exact_mod_cast hm1) (by exact_mod_cast hm2)]
  · have hrange1 : 19000101 ≤ compactOf y m d := by
      unfold compactOf
      have : (1900 : Int) ≤ (y : Int) := by exact_mod_cast hy
      have : (1 : Int) ≤ (m : Int) := by exact_mod_cast hm1
      have : (1 : Int) ≤ (d : Int) := by exact_mod_cast hd1
      omega
    have hrange2 : compactOf y m d ≤ 21001231 := by
      unfold compactOf
      have : (y : Int) ≤ 2100 := by exact_mod_cast hy2
      have : (m : Int) ≤ 12 := by exact_mod_cast hm2
      omega
    rw [parseNum_compact _ hrange1 hrange2]
    have hmi : (1 : Int) ≤ (m : Int) := by exact_mod_cast hm1
    have hmi2 : (m : Int) ≤ 12 := by exact_mod_cast hm2
    have hdi : (1 : Int) ≤ (d : Int) := by exact_mod_cast hd1
    have hyi : (1900 : Int) ≤ (y : Int) := by exact_mod_cast hy
    have hyi2 : (y : Int) ≤ 2100 := by exact_mod_cast hy2
    have hdiv : compactOf y m d / 10000 = (y : Int) := by unfold compactOf; omega
    have hmod1 : (compactOf y m d % 10000) / 100 = (m : Int) := by unfold compactOf; omega
    have hmod2 : compactOf y m d % 100 = (d : Int) := by unfold compactOf; omega
    rw [hdiv, hmod1, hmod2,
      jsDateYMD_eval _ _ _ (by omega) (by omega) (by omega) (by omega) (by omega) (by omega),
      jsMakeDay_of_valid_month _ _ _ hmi hmi2]
  · rw [parseNum_serial _ hs1 hs2]
    unfold serialOf
    congr 1
    ring

/-- Witness for C4: the four shapes denoting 2025-02-15 all parse to the
same day. -/
theorem claim_C4_witness :
    parseDateValue (JSDateInput.str (isoStringOf 2025 2 15)) =
      some (civilToDays 2025 2 15) ∧
    parseDateValue (JSDateInput.str (dayFirstStringOf 2025 2 15)) =
      some (civilToDays 2025 2 15) ∧
    parseDateValue (JSDateInput.num (compactOf 2025 2 15)) =
      some (civilToDays 2025 2 15) ∧
    parseDateValue (JSDateInput.num (serialOf 2025 2 15)) =
      some (civilToDays 2025 2 15) :=
  claim_C4 2025 2 15 (by decide) (by decide) (by decide) (by decide) (by decide)
    (by decide) (by decide) (by decide)

/-! ## Claim C7: parseDuration -/

theorem parseDateValue_none_of_falsy (v : JSDateInput) (h : jsFalsy v = true) :
    parseDateValue v = none := by
  cases v with
  | nullish => rfl
  | dateObj d => simp [jsFalsy] at h
  | num n =>
    simp only [jsFalsy, decide_eq_true_eq] at h
    simp [parseDateValue, h]
  | str s =>
    simp only [jsFalsy, List.isEmpty_iff] at h
    simp [parseDateValue, h]

/-- C7.  `parseDuration` returns the whole-day difference `end - start` when
both endpoints parse and the difference is non-negative; it returns the
empty result (never a negative number) when either endpoint fails to parse
or when the raw difference is negative; and on equal parseable endpoints it
returns 0. -/
theorem claim_C7 (a b : JSDateInput) :
    ((parseDateValue a = none ∨ parseDateValue b = none) → parseDuration a b = none) ∧
    (∀ s e : Int, parseDateValue a = some s → parseDateValue b = some e →
      0 ≤ e - s → parseDuration a b = some (e - s)) ∧
    (∀ s e : Int, parseDateValue a = some s → parseDateValue b = some e →
      e - s < 0 → parseDuration a b = none) ∧
    (∀ s : Int, parseDateValue a = some s → parseDuration a a = some 0) := by
  refine ⟨?_, ?_, ?_, ?_⟩
  · intro h
    rcases hfa : jsFalsy a with _ | _
    · rcases hfb : jsFalsy b with _ | _
      · simp only [parseDuration, hfa, hfb, Bool.or_self, Bool.false_eq_true, if_false]
        rcases h with h | h <;> rw [h]
        cases parseDateValue a <;> rfl
      · simp [parseDuration, hfb]
    · simp [parseDuration, hfa]
  · intro s e hs he hd
    have hfa : jsFalsy a = false := by
      rcases hfa : jsFalsy a with _ | _
      · rfl
      · rw [parseDateValue_none_of_falsy a hfa] at hs; cases hs
    have hfb : jsFalsy b = false := by
      rcases hfb : jsFalsy b with _ | _
      · rfl
      · rw [parseDateValue_none_of_falsy b hfb] at he; cases he
    simp only [parseDuration, hfa, hfb, hs, he, Bool.or_self, Bool.false_eq_true, if_false]
    rw [if_pos hd]
  · intro s e hs he hd
    have hfa : jsFalsy a = false := by
      rcases hfa : jsFalsy a with _ | _
      · rfl
      · rw [parseDateValue_none_of_falsy a hfa] at hs; cases hs
    have hfb : jsFalsy b = false := by
      rcases hfb : jsFalsy b with _ | _
      · rfl
      · rw [parseDateValue_none_of_falsy b hfb] at he; cases he
    simp only [parseDuration, hfa, hfb, hs, he, Bool.or_self, Bool.false_eq_true, if_false]
    rw [if_neg (by omega)]
  · intro s hs
    have hfa : jsFalsy a = false := by
      rcases hfa : jsFalsy a with _ | _
      · rfl
      · rw [parseDateValue_none_of_falsy a hfa] at hs; cases hs
    simp only [parseDuration, hfa, hs, Bool.or_self, Bool.false_eq_true, if_false]
    rw [if_pos (by omega : (0 : Int) ≤ s - s)]
    congr 1
    omega

/-- Witness for C7: equal endpoints give a zero duration, reversed endpoints
give the empty result. -/
theorem claim_C7_witness :
    parseDuration (JSDateInput.num 20250101) (JSDateInput.num 20250101) = some 0 ∧
    parseDuration (JSDateInput.num 20250102) (JSDateInput.num 20250101) = none :=
  ⟨(claim_C7 (JSDateInput.num 20250101) (JSDateInput.num 20250101)).2.2.2
      (jsMakeDay 2025 1 1) (by decide),
    (claim_C7 (JSDateInput.num 20250102) (JSDateInput.num 20250101)).2.2.1
      (jsMakeDay 2025 1 2) (jsMakeDay 2025 1 1) (by decide) (by decide) (by decide)⟩

/-! ## Claim C8: empty and placeholder inputs, and exclusion from buckets -/

/-- C8.  The empty string and the literal `DD/MM/YYYY` placeholder (matched
case-insensitively on the trimmed input) both fail to parse, and a record
whose date fails to parse matches no week bucket, so it contributes to
neither the arrival count nor the departure count of any bucket of
`computeStockTrend`. -/
theorem claim_C8 :
    (parseDateValue (JSDateInput.str []) = none) ∧
    (∀ s : List Char, jsToLowerList (jsTrim s) = ("dd/mm/yyyy".data) →
      parseDateValue (JSDateInput.str s) = none) ∧
    (∀ (e : JSDateInput) (s : Int), parseDateValue e = none →
      inWeekBucket s (parseDateValue e) = false) ∧
    (∀ (entries : List JSDateInput) (s : Int),
      countInWeek entries s =
        countInWeek (entries.filter (fun e => (parseDateValue e).isSome)) s) := by
  refine ⟨rfl, ?_, ?_, ?_⟩
  · intro s hph
    simp only [parseDateValue]
    rcases hs : s with _ | ⟨c, rest⟩
    · rfl
    · rw [hs] at hph
      rw [if_neg (by simp)]
      unfold parseStr parseTrimmed
      rcases ht : jsTrim (c :: rest) with _ | ⟨t0, trest⟩
      · rw [if_pos rfl]
      · rw [ht] at hph
        rw [if_neg (by simp), if_pos hph]
  · intro e s h
    rw [h]
    rfl
  · intro entries s
    unfold countInWeek
    rw [List.filter_filter]
    congr 1
    apply List.filter_congr
    intro e _
    cases hp : parseDateValue e with
    | none => simp [inWeekBucket, hp]
    | some z => simp [hp]

/-- Witness for C8: the placeholder string (in its original casing) fails to
parse, and a record with an unparseable date matches no bucket. -/
theorem claim_C8_witness :
    parseDateValue (JSDateInput.str ("DD/MM/YYYY".data)) = none ∧
    inWeekBucket 0 (parseDateValue JSDateInput.nullish) = false :=
  ⟨claim_C8.2.1 ("DD/MM/YYYY".data) (by decide),
    claim_C8.2.2.1 JSDateInput.nullish 0 rfl⟩

/-! ## Claims C2 and C5: computeStockTrend -/

theorem getD_map_range {α : Type} (f : Nat → α) (W i : Nat) (hi : i < W) (dflt : α) :
    ((List.range W).map f).getD i dflt = f i := by
  rw [List.getD_eq_getElem?_getD]
  simp [List.getElem?_map, List.getElem?_range hi]

theorem computeStockTrend_getD (yard hand : List JSDateInput) (c : Int) (W : Nat)
    (anchor : Int) (i : Nat) (hi : i < W) :
    (computeStockTrend yard hand c W anchor).getD i (0, 0) =
      ((weekStarts W anchor).getD i 0,
        max 0 (c - ((netByWeekList yard hand W anchor).drop (i + 1)).sum)) := by
  unfold computeStockTrend
  rw [getD_map_range _ _ _ hi]

theorem weekStarts_getD (W : Nat) (anchor : Int) (i : Nat) (hi : i < W) :
    (weekStarts W anchor).getD i 0 =
      startOfWeekMonday anchor - 7 * ((W : Int) - 1 - (i : Int)) := by
  unfold weekStarts
  rw [getD_map_range _ _ _ hi]

theorem sum_map_zero {α : Type} (l : List α) : (l.map (fun _ => (0 : Int))).sum = 0 := by
  induction l with
  | nil => rfl
  | cons a t ih => simp [ih]

/-- C2.  `weeklyLevels` (here `computeStockTrend`, with the source's fixed
10-week window and `now` anchor generalized to parameters) returns exactly
`windowWeeks` buckets; the level of bucket `i` is
`max 0 (currentTotal - sum of net[j] for j > i)`; consequently every level
is non-negative, and with no arrival and no departure events every level
equals the (non-negative) current total. -/
theorem claim_C2 (yard hand : List JSDateInput) (c : Int) (W : Nat) (anchor : Int) :
    (computeStockTrend yard hand c W anchor).length = W ∧
    (∀ i, i < W → ((computeStockTrend yard hand c W anchor).getD i (0, 0)).2 =
      max 0 (c - (((weekStarts W anchor).drop (i + 1)).map (netForWeek yard hand)).sum)) ∧
    (∀ p ∈ computeStockTrend yard hand c W anchor, 0 ≤ p.2) ∧
    (yard = [] → hand = [] → 0 ≤ c →
      ∀ p ∈ computeStockTrend yard hand c W anchor, p.2 = c) := by
  refine ⟨?_, ?_, ?_, ?_⟩
  · simp [computeStockTrend]
  · intro i hi
    rw [computeStockTrend_getD yard hand c W anchor i hi]
    unfold netByWeekList
    rw [← List.map_drop]
  · intro p hp
    unfold computeStockTrend at hp
    rcases List.mem_map.mp hp with ⟨i, hmem, rfl⟩
    exact le_max_left 0 _
  · intro hy hh hc p hp
    subst hy
    subst hh
    unfold computeStockTrend at hp
    rcases List.mem_map.mp hp with ⟨i, hmem, rfl⟩
    have hnet : netByWeekList [] [] W anchor = (weekStarts W anchor).map (fun _ => (0 : Int)) := by
      unfold netByWeekList
      apply List.map_congr_left
      intro s hs
      unfold netForWeek countInWeek
      simp
    simp only [hnet, ← List.map_drop, sum_map_zero]
    omega

/-- Witness for C2 on a concrete empty-events call. -/
theorem claim_C2_witness :
    (computeStockTrend [] [] 5 3 0).length = 3 ∧
    (∀ p ∈ computeStockTrend [] [] 5 3 0, p.2 = 5) :=
  ⟨(claim_C2 [] [] 5 3 0).1, (claim_C2 [] [] 5 3 0).2.2.2 rfl rfl (by decide)⟩

/-- C5.  The buckets of one `computeStockTrend` call are anchored and
contiguous: the anchor's Monday is a Monday on or before the anchor (within
6 days); the last bucket starts exactly there; bucket `i` starts
`7 * (windowWeeks - 1 - i)` days earlier, so consecutive buckets are 7 days
apart, oldest first with no gaps; and an event is counted in a bucket
exactly when its parsed date lies in the half-open week
`[start, start + 7)`. -/
theorem claim_C5 (yard hand : List JSDateInput) (c : Int) (W : Nat) (anchor : Int) :
    dayOfWeek (startOfWeekMonday anchor) = 1 ∧
    startOfWeekMonday anchor ≤ anchor ∧
    anchor - startOfWeekMonday anchor < 7 ∧
    (0 < W → ((computeStockTrend yard hand c W anchor).getD (W - 1) (0, 0)).1 =
      startOfWeekMonday anchor) ∧
    (∀ i, i < W → ((computeStockTrend yard hand c W anchor).getD i (0, 0)).1 =
      startOfWeekMonday anchor - 7 * ((W : Int) - 1 - (i : Int))) ∧
    (∀ i, i + 1 < W →
      ((computeStockTrend yard hand c W anchor).getD (i + 1) (0, 0)).1 =
        ((computeStockTrend yard hand c W anchor).getD i (0, 0)).1 + 7) ∧
    (∀ (e : JSDateInput) (s : Int), inWeekBucket s (parseDateValue e) = true ↔
      ∃ z, parseDateValue e = some z ∧ s ≤ z ∧ z < s + 7) := by
  have hstart : ∀ i, i < W → ((computeStockTrend yard hand c W anchor).getD i (0, 0)).1 =
      startOfWeekMonday anchor - 7 * ((W : Int) - 1 - (i : Int)) := by
    intro i hi
    rw [computeStockTrend_getD yard hand c W anchor i hi, weekStarts_getD W anchor i hi]
  refine ⟨?_, ?_, ?_, ?_, hstart, ?_, ?_⟩
  · simp only [startOfWeekMonday, dayOfWeek]
    omega
  · simp only [startOfWeekMonday, dayOfWeek]
    omega
  · simp only [startOfWeekMonday, dayOfWeek]
    omega
  · intro hW
    rw [hstart (W - 1) (by omega)]
    have : ((W - 1 : Nat) : Int) = (W : Int) - 1 := by omega
    rw [this]
    ring
  · intro i hi
    rw [hstart (i + 1) (by omega), hstart i (by omega)]
    push_cast
    ring
  · intro e s
    cases hp : parseDateValue e with
    | none => simp [inWeekBucket]
    | some z => simp [inWeekBucket]

/-- Witness for C5 at a concrete call: 10 weeks anchored at epoch day 0
(Thursday 1970-01-01, whose Monday is day -3). -/
theorem claim_C5_witness :
    ((computeStockTrend [] [] 0 10 0).getD 9 (0, 0)).1 = startOfWeekMonday 0 ∧
    ((computeStockTrend [] [] 0 10 0).getD 0 (0, 0)).1 = startOfWeekMonday 0 - 63 := by
  constructor
  · exact (claim_C5 [] [] 0 10 0).2.2.2.1 (by decide)
  · have := (claim_C5 [] [] 0 10 0).2.2.2.2.1 0 (by decide)
    rw [this]
    norm_num

/-! ## Claim C6: age ranges -/

/-- Counterexample to C6 as stated: a parseable record aged exactly 10000
days (e.g. received on epoch day 0 with "now" at epoch day 10000) falls in
none of the four ranges — the last range is capped at 9999, so the ranges do
not cover `[0, ∞)` and the record is not assigned to exactly one range. -/
theorem claim_C6_counterexample :
    daysSinceISO 10000 (some 0) = 10000 ∧
    (rangesContaining (daysSinceISO 10000 (some 0))).length = 0 ∧
    (yardRangeCounts [some 0] 10000).map Prod.snd = [0, 0, 0, 0] := by
  refine ⟨by decide, by decide, by decide⟩

/-- C6 amended.  For every record with a parseable date, the age is the
whole-day difference clamped to ≥ 0 (a future-dated record has age 0), and
for ages of at most 9999 days the record falls in exactly one range, with
inclusive bounds on both ends: age exactly 30 falls in the first range
(0–30) only and age exactly 31 falls in the second (31–90) only.  The four
ranges partition `[0, 9999]` (not all of `[0, ∞)`: ages above 9999 fall in
no range). -/
theorem claim_C6_amended (now z : Int) (h : now - z ≤ 9999) :
    (rangesContaining (daysSinceISO now (some z))).length = 1 ∧
    (now < z → daysSinceISO now (some z) = 0) ∧
    (now - z = 30 →
      (rangesContaining (daysSinceISO now (some z))).map (fun r => r.label) = ["0–30"]) ∧
    (now - z = 31 →
      (rangesContaining (daysSinceISO now (some z))).map (fun r => r.label) = ["31–90"]) := by
  have hval : daysSinceISO now (some z) = max 0 (now - z) := rfl
  refine ⟨?_, ?_, ?_, ?_⟩
  · rw [hval]
    unfold rangesContaining yardRangeDefs inYardRange
    simp only [List.filter_cons, List.filter_nil, decide_eq_true_eq]
    norm_num
    split_ifs <;> simp <;> omega
  · intro hf
    rw [hval]
    omega
  · intro h30
    have : daysSinceISO now (some z) = 30 := by rw [hval]; omega
    rw [this]
    decide
  · intro h31
    have : daysSinceISO now (some z) = 31 := by rw [hval]; omega
    rw [this]
    decide

/-- Witness for the amended C6 at ages 30, 31 and a future-dated record. -/
theorem claim_C6_amended_witness :
    (rangesContaining (daysSinceISO 30 (some 0))).map (fun r => r.label) = ["0–30"] ∧
    (rangesContaining (daysSinceISO 31 (some 0))).map (fun r => r.label) = ["31–90"] ∧
    daysSinceISO 0 (some 5) = 0 :=
  ⟨(claim_C6_amended 30 0 (by decide)).2.2.1 (by decide),
    (claim_C6_amended 31 0 (by decide)).2.2.2 (by decide),
    (claim_C6_amended 0 5 (by decide)).2.1 (by decide)⟩

/-! ## Claims C9 and C10: category shares -/

theorem jsRound_div (s t : Nat) (ht : t ≠ 0) :
    jsRound ((s : ℚ) / (t : ℚ) * 100) = ((200 * s + t : ℕ) : ℤ) / ((2 * t : ℕ) : ℤ) := by
  unfold jsRound
  have ht0 : ((t : ℚ)) ≠ 0 := by exact_mod_cast ht
  have heq : (s : ℚ) / (t : ℚ) * 100 + 1 / 2 =
      (((200 * s + t : ℕ) : ℤ) : ℚ) / (((2 * t : ℕ) : ℕ) : ℚ) := by
    push_cast
    field_simp
    ring
  rw [heq, Rat.floor_intCast_div_natCast]

theorem jsRound_pct_bounds (s t : Nat) (hs : s ≤ t) (ht : t ≠ 0) :
    0 ≤ jsRound ((s : ℚ) / (t : ℚ) * 100) ∧ jsRound ((s : ℚ) / (t : ℚ) * 100) ≤ 100 := by
  have htq : (0 : ℚ) < (t : ℚ) := by exact_mod_cast Nat.pos_of_ne_zero ht
  have hq0 : (0 : ℚ) ≤ (s : ℚ) / (t : ℚ) * 100 := by positivity
  have hq1 : (s : ℚ) / (t : ℚ) * 100 ≤ 100 := by
    rw [div_mul_eq_mul_div, div_le_iff₀ htq]
    have : (s : ℚ) ≤ (t : ℚ) := by exact_mod_cast hs
    nlinarith
  unfold jsRound
  constructor
  · exact Int.floor_nonneg.mpr (by linarith)
  · have hlt : (s : ℚ) / (t : ℚ) * 100 + 1 / 2 < ((101 : ℤ) : ℚ) := by push_cast; linarith
    have := Int.floor_lt.mpr hlt
    omega

/-- C9.  The yard-inventory share computation returns, for each category,
its count together with an integer percentage that is the round-half-up of
`(count / total) * 100`; when the total is zero both percentages are 0 with
no division performed, and on the empty record list the whole structure is
zero-filled.  (The round-half-up value is characterized here by the exact
integer formula `(200 * count + total) / (2 * total)` in floor division.) -/
theorem claim_C9 (types : List String) :
    yardInventory [] = ⟨0, 0, 0, 0, 0⟩ ∧
    ((yardInventory types).total = 0 →
      (yardInventory types).stockPct = 0 ∧ (yardInventory types).customerPct = 0) ∧
    ((yardInventory types).total ≠ 0 →
      (yardInventory types).stockPct =
        ((200 * (yardInventory types).stock + (yardInventory types).total : ℕ) : ℤ) /
          ((2 * (yardInventory types).total : ℕ) : ℤ) ∧
      (yardInventory types).customerPct =
        ((200 * (yardInventory types).customer + (yardInventory types).total : ℕ) : ℤ) /
          ((2 * (yardInventory types).total : ℕ) : ℤ)) := by
  refine ⟨rfl, ?_, ?_⟩
  · intro h
    have hlen : types.length = 0 := h
    constructor <;> simp [yardInventory, hlen]
  · intro h
    have hlen : types.length ≠ 0 := h
    constructor
    · show (if types.length = 0 then 0
        else jsRound ((stockCount types : ℚ) / (types.length : ℚ) * 100)) = _
      rw [if_neg hlen, jsRound_div _ _ hlen]
      rfl
    · show (if types.length = 0 then 0
        else jsRound ((customerCount types : ℚ) / (types.length : ℚ) * 100)) = _
      rw [if_neg hlen, jsRound_div _ _ hlen]
      rfl

/-- Witness for C9: the empty list is all zeros, and a single-"Stock" list
gives a 100% stock share. -/
theorem claim_C9_witness :
    (yardInventory []).stockPct = 0 ∧ (yardInventory ["Stock"]).stockPct = 100 := by
  constructor
  · exact ((claim_C9 []).2.1 rfl).1
  · have := ((claim_C9 ["Stock"]).2.2 (by decide)).1
    rw [this]
    decide

theorem countP_stock_customer (l : List String)
    (hmem : ∀ x ∈ l, x = "Stock" ∨ x = "Customer") :
    l.countP (fun x => decide (x = "Stock")) + l.countP (fun x => decide (x = "Customer")) =
      l.length := by
  induction l with
  | nil => rfl
  | cons a t ih =>
    have ha := hmem a (by simp)
    have ht := ih (fun x hx => hmem x (by simp [hx]))
    rw [List.countP_cons, List.countP_cons]
    rcases ha with h | h <;> subst h <;> simp <;> omega

theorem normalizeType_stock_or_customer (v : Option (List Char)) :
    normalizeType v = "Stock" ∨ normalizeType v = "Customer" := by
  unfold normalizeType
  split_ifs <;> simp

/-- C10.  `normalizeType` always returns exactly `"Stock"` or `"Customer"`
(defaulting to `"Customer"`), so in every dealer snapshot built from
normalized types the Stock count plus the Customer count equals the total
yard-entry count, and both percentages lie between 0 and 100. -/
theorem claim_C10 (raws : List (Option (List Char))) :
    (∀ v, normalizeType v = "Stock" ∨ normalizeType v = "Customer") ∧
    (yardInventory (raws.map normalizeType)).stock +
        (yardInventory (raws.map normalizeType)).customer =
      (yardInventory (raws.map normalizeType)).total ∧
    (0 ≤ (yardInventory (raws.map normalizeType)).stockPct ∧
      (yardInventory (raws.map normalizeType)).stockPct ≤ 100) ∧
    (0 ≤ (yardInventory (raws.map normalizeType)).customerPct ∧
      (yardInventory (raws.map normalizeType)).customerPct ≤ 100) := by
  have hmem : ∀ x ∈ raws.map normalizeType, x = "Stock" ∨ x = "Customer" := by
    intro x hx
    rcases List.mem_map.mp hx with ⟨v, hv, rfl⟩
    exact normalizeType_stock_or_customer v
  have hsplit : stockCount (raws.map normalizeType) + customerCount (raws.map normalizeType) =
      (raws.map normalizeType).length := by
    unfold stockCount customerCount
    exact countP_stock_customer _ hmem
  have hsle : stockCount (raws.map normalizeType) ≤ (raws.map normalizeType).length :=
    List.countP_le_length _
  have hcle : customerCount (raws.map normalizeType) ≤ (raws.map normalizeType).length :=
    List.countP_le_length _
  refine ⟨normalizeType_stock_or_customer, hsplit, ?_, ?_⟩
  · show 0 ≤ (if (raws.map normalizeType).length = 0 then (0 : ℤ)
      else jsRound ((stockCount (raws.map normalizeType) : ℚ) /
        ((raws.map normalizeType).length : ℚ) * 100)) ∧
      (if (raws.map normalizeType).length = 0 then (0 : ℤ)
      else jsRound ((stockCount (raws.map normalizeType) : ℚ) /
        ((raws.map normalizeType).length : ℚ) * 100)) ≤ 100
    by_cases hlen : (raws.map normalizeType).length = 0
    · rw [if_pos hlen]
      exact ⟨le_refl 0, by omega⟩
    · rw [if_neg hlen]
      exact jsRound_pct_bounds _ _ hsle hlen
  · show 0 ≤ (if (raws.map normalizeType).length = 0 then (0 : ℤ)
      else jsRound ((customerCount (raws.map normalizeType) : ℚ) /
        ((raws.map normalizeType).length : ℚ) * 100)) ∧
      (if (raws.map normalizeType).length = 0 then (0 : ℤ)
      else jsRound ((customerCount (raws.map normalizeType) : ℚ) /
        ((raws.map normalizeType).length : ℚ) * 100)) ≤ 100
    by_cases hlen : (raws.map normalizeType).length = 0
    · rw [if_pos hlen]
      exact ⟨le_refl 0, by omega⟩
    · rw [if_neg hlen]
      exact jsRound_pct_bounds _ _ hcle hlen
